import Mathlib

/-!
A verification development for the kg_mcp knowledge-graph server
(`server.py`): a shallow embedding of its data model and operations,
together with theorems about the behaviour its specification describes.

Conventions of the embedding:

* The four SQLite tables become Lean lists (`nodes`, `edges`, `state`,
  `documents`).  Primary-key uniqueness is a `Nodup` hypothesis where a
  proof needs it.
* JSON-encoded string parameters (`bands`, `meta`, `node_ids`, bulk
  payloads) are modelled by their parsed values; the emptiness guards of
  the Python code (`bands != "[]"`, `meta != "{}"`) become `≠ []` on the
  parsed values, and Python dicts become association lists whose
  `dict.update` is `dictUpdate`.
* `time.time()` is passed in explicitly as an integer `now`; `float`
  edge weights are rationals.  Neither is ever subjected to arithmetic
  that would distinguish them from the Python originals.
* Operations that report failures as structured JSON payloads are total
  functions into `Resp`; operations that can raise (the sqlite3
  IntegrityError of a foreign-key violation, the ValueError of `int()`)
  return `Except String _`, the `.error` case standing for the raised
  exception, in which case nothing was committed and the caller keeps
  the unchanged store.
* SQLite `LIKE` with pattern `name + "%"` is modelled as a literal
  string-prefix test (`domLike`), and `LIKE "%" + q + "%"` as an
  ASCII-case-folded substring test (`likeContains`); both are exact for
  the wildcard-free arguments this development evaluates them on.
* `uuid.uuid4()` is nondeterministic, so the generated document id is an
  explicit argument of `kg_doc_create`.
-/

/-! ## Generic list helpers -/

/-- Association-list lookup with string keys (first match wins, which is
how `sqlite3.Row` exposes a dict built from unique keys). -/
def lookupStr (l : List (String × String)) (k : String) : Option String :=
  (l.find? (fun kv => kv.1 == k)).map (·.2)

/-- Python `set.add` on a list kept duplicate-free: append if missing. -/
def setAdd (l : List String) (x : String) : List String :=
  if x ∈ l then l else l ++ [x]

/-- Python `set.update`: add every element of `nf` to `v`. -/
def listUnion (v nf : List String) : List String := nf.foldl setAdd v

/-- Insertion into a list sorted by the boolean relation `le`. -/
def insertSorted {α : Type} (le : α → α → Bool) (x : α) : List α → List α
  | [] => [x]
  | y :: ys => if le x y then x :: y :: ys else y :: insertSorted le x ys

/-- Insertion sort; models the `ORDER BY` clauses of the SQL queries. -/
def sortBy {α : Type} (le : α → α → Bool) (l : List α) : List α :=
  l.foldr (insertSorted le) []

/-- Python `dict.update`: keys of `old` keep their order but take the
value from `new` when present; keys only in `new` are appended. -/
def dictUpdate (old new : List (String × String)) : List (String × String) :=
  old.map (fun kv =>
    match lookupStr new kv.1 with
    | some v => (kv.1, v)
    | none => kv)
  ++ new.filter (fun kv => (lookupStr old kv.1).isNone)

/-- Lexicographic order on character lists (by code point). -/
def strLtList : List Char → List Char → Bool
  | [], [] => false
  | [], _ :: _ => true
  | _ :: _, [] => false
  | a :: as, b :: bs => if a < b then true else if b < a then false else strLtList as bs

/-- Strict lexicographic string order, as SQLite BINARY collation on the
ASCII-only strings this development compares. -/
def strLtB (a b : String) : Bool := strLtList a.data b.data

/-- Python `int()` on the decimal numerals this server stores: an
optional sign followed by at least one digit; anything else raises. -/
def digitsToNat : List Char → Nat → Option Nat
  | [], acc => some acc
  | c :: cs, acc =>
    if 48 ≤ c.toNat ∧ c.toNat ≤ 57 then digitsToNat cs (acc * 10 + (c.toNat - 48))
    else none

/-- Python `int()` over a whole string (see `digitsToNat`). -/
def pyInt (s : String) : Option Int :=
  match s.data with
  | [] => none
  | '-' :: cs => if cs = [] then none else (digitsToNat cs 0).map (fun n => -(n : Int))
  | cs => (digitsToNat cs 0).map (fun n => (n : Int))

/-! ## Data model (`init_db` schema) -/

/-- A row of the `nodes` table. -/
structure Node where
  id : String
  type : String
  summary : String
  bands : List Int
  domain : String
  status : String
  kai_note : String
  meta : List (String × String)
  created_at : Int
  updated_at : Int
deriving DecidableEq, Repr

/-- A row of the `edges` table. -/
structure Edge where
  source_id : String
  target_id : String
  relation : String
  weight : ℚ
  note : String
  created_at : Int
deriving DecidableEq, Repr

/-- A row of the `state` table. -/
structure StateRow where
  key : String
  value : String
  updated_at : Int
deriving DecidableEq, Repr

/-- A row of the `documents` table. -/
structure Document where
  id : String
  title : String
  content : String
  session_number : Int
  node_ids : List String
  created_at : Int
  updated_at : Int
deriving DecidableEq, Repr

/-- The whole database. -/
structure Store where
  nodes : List Node
  edges : List Edge
  state : List StateRow
  documents : List Document
deriving DecidableEq, Repr

/-- A structured tool response: either a payload or the
`\x7b"error": "<kind>:<id>"\x7d` JSON object returned in the normal
response channel.  Functions into `Resp` are total: they never raise. -/
inductive Resp (α : Type) where
  | ok : α → Resp α
  | error : String → Resp α
deriving DecidableEq, Repr

/-- `SELECT * FROM nodes WHERE id=?` (id is the primary key). -/
def findNode (st : Store) (id : String) : Option Node :=
  st.nodes.find? (fun n => n.id == id)

/-- `SELECT * FROM documents WHERE id=?` (id is the primary key). -/
def findDoc (st : Store) (id : String) : Option Document :=
  st.documents.find? (fun d => d.id == id)

/-- `EXISTS` check against the `nodes` primary key. -/
def nodeExists (st : Store) (id : String) : Bool :=
  st.nodes.any (fun n => n.id == id)

/-- The `_doc_idx` projection of a document row. -/
structure DocIdx where
  id : String
  title : String
  session : Int
  len : Nat
  updated : Int
deriving DecidableEq, Repr

/-- `_doc_idx(r)` from the source. -/
def docIdx (d : Document) : DocIdx :=
  ⟨d.id, d.title, d.session_number, d.content.length, d.updated_at⟩

/-! ## kg_put_node -/

/-- Default of the `type` parameter in the `kg_put_node` signature. -/
def typeDefault : String := "concept"

/-- Default of the `status` parameter in the `kg_put_node` signature. -/
def statusDefault : String := "seed"

/-- Result payload of `kg_put_node`. -/
structure PutNodeOk where
  op : String
  id : String
  domain : String
deriving DecidableEq, Repr

/-- `kg_put_node`: create, or partial-merge update of the existing row.
Each conditional mirrors one `if` of the Python update branch; the
`UPDATE ... WHERE id=?` is the map over `nodes`. -/
def kg_put_node (st : Store) (now : Int) (id type summary : String) (bands : List Int)
    (domain status kai_note : String) (meta : List (String × String)) :
    Store × PutNodeOk :=
  match findNode st id with
  | some ex =>
    let n' : Node :=
      { ex with
        updated_at := now
        type := if type ≠ "" then type else ex.type
        summary := if summary ≠ "" then summary else ex.summary
        bands := if bands ≠ [] then bands else ex.bands
        domain := if domain ≠ "" then domain else ex.domain
        status := if status ≠ "" then status else ex.status
        kai_note := if kai_note ≠ "" then kai_note else ex.kai_note
        meta := if meta ≠ [] then dictUpdate ex.meta meta else ex.meta }
    ({ st with nodes := st.nodes.map (fun n => if n.id == id then n' else n) },
     ⟨"updated", id, if domain ≠ "" then domain else ex.domain⟩)
  | none =>
    ({ st with nodes :=
        st.nodes ++ [⟨id, type, summary, bands, domain, status, kai_note, meta, now, now⟩] },
     ⟨"created", id, domain⟩)

/-! ## kg_put_edge -/

/-- `INSERT OR REPLACE` keyed by the composite `(source_id, target_id,
relation)` primary key: drop any row with that key, insert the new one. -/
def insertOrReplaceEdge (edges : List Edge) (e : Edge) : List Edge :=
  edges.filter (fun x =>
    !(x.source_id == e.source_id && x.target_id == e.target_id && x.relation == e.relation))
  ++ [e]

/-- Result payload of `kg_put_edge`. -/
structure EdgeSetOk where
  src : String
  rel : String
  tgt : String
deriving DecidableEq, Repr

/-- `kg_put_edge`: the schema's `FOREIGN KEY ... REFERENCES nodes(id)`
together with `PRAGMA foreign_keys=ON` makes sqlite raise an
IntegrityError when an endpoint id has no node row; the `.error` case is
that raised exception (nothing committed). -/
def kg_put_edge (st : Store) (now : Int) (source_id target_id relation : String)
    (weight : ℚ) (note : String) : Except String (Store × EdgeSetOk) :=
  if nodeExists st source_id && nodeExists st target_id then
    .ok ({ st with edges :=
            insertOrReplaceEdge st.edges ⟨source_id, target_id, relation, weight, note, now⟩ },
         ⟨source_id, relation, target_id⟩)
  else
    .error "FOREIGN KEY constraint failed"

/-- The store the caller observes after `kg_put_edge`: the committed
store on success, the untouched store when the call raised. -/
def putEdgeStore (st : Store) (now : Int) (source_id target_id relation : String)
    (weight : ℚ) (note : String) : Store :=
  match kg_put_edge st now source_id target_id relation weight note with
  | .ok (st', _) => st'
  | .error _ => st

/-! ## kg_delete_node -/

/-- Result payload of `kg_delete_node`. -/
structure DeleteOk where
  op : String
  id : String
deriving DecidableEq, Repr

/-- `kg_delete_node`: `DELETE FROM nodes WHERE id=?`; the schema's
`ON DELETE CASCADE` removes the edges of a row that was actually
deleted.  A nonexistent id deletes nothing and still reports success. -/
def kg_delete_node (st : Store) (id : String) : Store × DeleteOk :=
  ({ st with
      nodes := st.nodes.filter (fun n => n.id != id)
      edges :=
        if nodeExists st id then
          st.edges.filter (fun e => e.source_id != id && e.target_id != id)
        else st.edges },
   ⟨"deleted", id⟩)

/-! ## kg_get (bounded neighborhood) -/

/-- The deduplication key of an edge. -/
def tripleOf (e : Edge) : String × String × String :=
  (e.source_id, e.relation, e.target_id)

/-- One step of the dedup loop: `seen` is the list of triples already
kept, `ue` the kept edges, exactly as in the Python `for e in edges`. -/
def dedupStep (a : List (String × String × String) × List Edge) (e : Edge) :
    List (String × String × String) × List Edge :=
  if tripleOf e ∈ a.1 then a else (a.1 ++ [tripleOf e], a.2 ++ [e])

/-- Deduplicate an edge list by `(source, relation, target)` triple,
keeping first occurrences, as both traversal tools do before returning. -/
def dedupEdges (es : List Edge) : List Edge :=
  (es.foldl dedupStep ([], [])).2

/-- Accumulator of the `kg_get` hop loop: collected `edges`, the next
frontier `nf`, and the discovered neighbor ids `nids`. -/
structure GAcc where
  edges : List Edge
  nf : List String
  nids : List String
deriving Repr

/-- Scanning one incident edge in `kg_get`: always record the edge; add
the opposite endpoint (`other`) to `nf` and `nids` unless visited. -/
def gScan (visited : List String) (other : Edge → String) (acc : GAcc) (e : Edge) : GAcc :=
  { edges := acc.edges ++ [e]
    nf := if other e ∈ visited then acc.nf else setAdd acc.nf (other e)
    nids := if other e ∈ visited then acc.nids else setAdd acc.nids (other e) }

/-- Processing one frontier node in `kg_get`: the two indexed queries
`WHERE source_id=?` and `WHERE target_id=?`. -/
def gProcess (allEdges : List Edge) (visited : List String) (acc : GAcc) (nid : String) :
    GAcc :=
  let acc1 := (allEdges.filter (fun e => e.source_id == nid)).foldl
    (gScan visited (fun e => e.target_id)) acc
  (allEdges.filter (fun e => e.target_id == nid)).foldl
    (gScan visited (fun e => e.source_id)) acc1

/-- The `for _ in range(min(hops,3))` loop of `kg_get`; returns the
collected edge list and the discovered neighbor ids. -/
def gLoop (allEdges : List Edge) :
    Nat → List Edge → List String → List String → List String → List Edge × List String
  | 0, edges, nids, _, _ => (edges, nids)
  | k + 1, edges, nids, visited, frontier =>
    let acc := frontier.foldl (gProcess allEdges visited) ⟨edges, [], nids⟩
    gLoop allEdges k acc.edges acc.nids (listUnion visited acc.nf) acc.nf

/-- Result payload of `kg_get`. -/
structure GetOk where
  node : Node
  edges : List Edge
  neighbors : List (String × Node)
deriving DecidableEq, Repr

/-- `kg_get`: seed row, `min(hops,3)` rounds of undirected expansion,
edge dedup, and the neighbor rows that actually resolve. -/
def kg_get (st : Store) (id : String) (hops : Nat) : Resp GetOk :=
  match findNode st id with
  | none => .error ("not_found:" ++ id)
  | some row =>
    let r := gLoop st.edges (min hops 3) [] [] [id] [id]
    let ue := dedupEdges r.1
    let nb := r.2.filterMap (fun nid => (findNode st nid).map (fun n => (nid, n)))
    .ok ⟨row, ue, nb⟩

/-! ## kg_traverse (filtered BFS) -/

/-- Whether an edge passes the optional relation filter (`rf = none`
when `relation_filter` was empty). -/
def edgeSel (rf : Option String) (e : Edge) : Bool :=
  match rf with
  | none => true
  | some r => e.relation == r

/-- Accumulator of the `kg_traverse` loop: resolved nodes `vn`,
collected edges `ce`, `visited`, and the next frontier `nf`. -/
structure TAcc where
  vn : List (String × Node)
  ce : List Edge
  visited : List String
  nf : List String
deriving Repr

/-- Scanning one incident edge in `kg_traverse`: record it; add the
opposite endpoint to `nf` unless already visited. -/
def tScan (other : Edge → String) (acc : TAcc) (e : Edge) : TAcc :=
  { acc with
      ce := acc.ce ++ [e]
      nf := if other e ∈ acc.visited then acc.nf else setAdd acc.nf (other e) }

/-- Processing one frontier node in `kg_traverse`: skip if visited,
record the resolved row, and when `expand` (Python `hop < max_hops`)
scan both edge directions under the relation filter. -/
def tVisit (st : Store) (rf : Option String) (expand : Bool) (acc : TAcc) (nid : String) :
    TAcc :=
  if nid ∈ acc.visited then acc
  else
    let acc1 : TAcc :=
      { acc with
          visited := acc.visited ++ [nid]
          vn :=
            match findNode st nid with
            | some row => acc.vn ++ [(nid, row)]
            | none => acc.vn }
    if expand then
      let acc2 := (st.edges.filter (fun e => e.source_id == nid && edgeSel rf e)).foldl
        (tScan (fun e => e.target_id)) acc1
      (st.edges.filter (fun e => e.target_id == nid && edgeSel rf e)).foldl
        (tScan (fun e => e.source_id)) acc2
    else acc1

/-- The `for hop in range(max_hops+1)` loop of `kg_traverse`, recursing
on the number of rounds still to run (`expand` iff a later round
exists). -/
def tLoop (st : Store) (rf : Option String) : Nat → List String → TAcc → TAcc
  | 0, _, acc => acc
  | r + 1, frontier, acc =>
    let acc1 := frontier.foldl (tVisit st rf (0 < r)) { acc with nf := [] }
    tLoop st rf r acc1.nf acc1

/-- Result payload of `kg_traverse` (it never errors; a missing start
node just resolves to nothing). -/
structure TravOk where
  start : String
  hops : Nat
  nodes : List (String × Node)
  edges : List Edge
deriving DecidableEq, Repr

/-- `kg_traverse`: BFS with an optional relation filter, edges
deduplicated across the whole walk. -/
def kg_traverse (st : Store) (start_id : String) (max_hops : Nat)
    (relation_filter : String) : TravOk :=
  let rf := if relation_filter == "" then none else some relation_filter
  let acc := tLoop st rf (max_hops + 1) [start_id] ⟨[], [], [], []⟩
  ⟨start_id, max_hops, acc.vn, dedupEdges acc.ce⟩

/-! ## Reachability (the specification's hop bound) -/

/-- Undirected adjacency over an edge list. -/
def adjE (edges : List Edge) (a b : String) : Prop :=
  ∃ e ∈ edges, (e.source_id = a ∧ e.target_id = b) ∨ (e.target_id = a ∧ e.source_id = b)

/-- `reachableWithin edges seed k x`: `x` lies within `k` undirected
hops of `seed`. -/
def reachableWithin (edges : List Edge) (seed : String) : Nat → String → Prop
  | 0, x => x = seed
  | k + 1, x => reachableWithin edges seed k x ∨
      ∃ y, reachableWithin edges seed k y ∧ adjE edges y x

/-! ## kg_load_domain -/

/-- The `WHERE domain LIKE ?` test with pattern `name + "%"`: a plain
string-prefix match (see the module comment on `LIKE`), taken over the
character lists of the two strings. -/
def domLike (name d : String) : Bool := name.data.isPrefixOf d.data

/-- `ORDER BY domain, updated_at DESC` on node rows. -/
def nodeLeLoad (a b : Node) : Bool :=
  if a.domain == b.domain then decide (b.updated_at ≤ a.updated_at)
  else strLtB a.domain b.domain

/-- Result payload of `kg_load_domain`.  The `depth="index"` variant
projects each row to `(id, type, status, domain)` before serialising;
the selected row set is identical, so `nodes` holds the full rows. -/
structure LoadOk where
  domain : String
  nodes : List Node
  edges : List Edge
  sub_domains : List (String × Nat)
deriving DecidableEq, Repr

/-- `ORDER BY domain` on domain strings (ascending, with ties kept). -/
def strLeB (a b : String) : Bool := a == b || strLtB a b

/-- `kg_load_domain`: nodes whose domain matches `name + "%"`, the edges
with both endpoints inside that selection (only at `depth="full"`), and
the matching domains different from `name`, grouped with counts. -/
def kg_load_domain (st : Store) (name : String) (depth : String) : LoadOk :=
  let rows := sortBy nodeLeLoad (st.nodes.filter (fun n => domLike name n.domain))
  let node_ids := rows.map (·.id)
  let edges :=
    if !node_ids.isEmpty && depth == "full" then
      st.edges.filter (fun e => node_ids.contains e.source_id && node_ids.contains e.target_id)
    else []
  let subNodes := st.nodes.filter (fun n => domLike name n.domain && n.domain != name)
  let subs := (sortBy strLeB ((subNodes.map (·.domain)).dedup)).map (fun d =>
    (d, (subNodes.filter (fun n => n.domain == d)).length))
  ⟨name, rows, edges, subs⟩

/-! ## kg_boot -/

/-- One entry of the boot-time domain index. -/
structure DomainEntry where
  name : String
  count : Nat
  last_updated : Int
deriving DecidableEq, Repr

/-- `MAX(updated_at)` over a (nonempty) group of node rows. -/
def maxUpdated : List Node → Int
  | [] => 0
  | n :: ns => ns.foldl (fun a m => max a m.updated_at) n.updated_at

/-- `ORDER BY last_upd DESC` on domain entries. -/
def domainEntryLe (a b : DomainEntry) : Bool := decide (b.last_updated ≤ a.last_updated)

/-- `ORDER BY updated_at DESC` on node rows. -/
def nodeLeUpd (a b : Node) : Bool := decide (b.updated_at ≤ a.updated_at)

/-- `ORDER BY updated_at DESC` on document rows. -/
def docLeUpd (a b : Document) : Bool := decide (b.updated_at ≤ a.updated_at)

/-- `ORDER BY session_number DESC, updated_at DESC` on document rows. -/
def docLeSessUpd (a b : Document) : Bool :=
  if a.session_number == b.session_number then decide (b.updated_at ≤ a.updated_at)
  else decide (b.session_number ≤ a.session_number)

/-- `INSERT OR REPLACE INTO state`: drop any row with the key, insert
the new row. -/
def stateReplace (rows : List StateRow) (k v : String) (now : Int) : List StateRow :=
  rows.filter (fun r => r.key != k) ++ [⟨k, v, now⟩]

/-- `SELECT value FROM state WHERE key=?` (key is the primary key). -/
def stateLookup (rows : List StateRow) (k : String) : Option String :=
  (rows.find? (fun r => r.key == k)).map (·.value)

/-- Result payload of `kg_boot`. -/
structure BootOk where
  state : List (String × String)
  domains : List DomainEntry
  meta_nodes : List Node
  edge_count : Nat
  docs : List DocIdx
  edges : Option (List Edge)
deriving DecidableEq, Repr

/-- `kg_boot`: state dump, domain index, always-loaded `meta` nodes,
edge count, recent document index; then `session_count` is parsed,
incremented and written back.  A `session_count` value `int()` cannot
parse raises (the `.error` case) before anything is written. -/
def kg_boot (st : Store) (now : Int) (include_edges : Bool) :
    Except String (Store × BootOk) :=
  let stateMap := st.state.map (fun r => (r.key, r.value))
  let domains := sortBy domainEntryLe (((st.nodes.map (·.domain)).dedup).map (fun d =>
    let grp := st.nodes.filter (fun n => n.domain == d)
    { name := if d == "" then "(unassigned)" else d
      count := grp.length
      last_updated := maxUpdated grp }))
  let meta_nodes := sortBy nodeLeUpd (st.nodes.filter (fun n => n.domain == "meta"))
  let docs0 := (sortBy docLeSessUpd st.documents).take 20
  let res : BootOk :=
    { state := stateMap, domains := domains, meta_nodes := meta_nodes
      edge_count := st.edges.length, docs := docs0.map docIdx
      edges := if include_edges then some st.edges else none }
  match pyInt ((lookupStr stateMap "session_count").getD "0") with
  | none => .error "invalid session_count"
  | some sc =>
    .ok ({ st with state := stateReplace st.state "session_count" (toString (sc + 1)) now },
         res)

/-! ## kg_bulk and kg_bulk_set_domain -/

/-- One node object of the bulk payload; each field holds the result of
the corresponding `n.get(key, default)` in the source. -/
structure NodeSpec where
  id : String
  type : String := "concept"
  summary : String := ""
  bands : List Int := []
  domain : String := ""
  status : String := "seed"
  kai_note : String := ""
  meta : List (String × String) := []
deriving DecidableEq, Repr

/-- One edge object of the bulk payload. -/
structure EdgeSpec where
  source_id : String
  target_id : String
  relation : String
  weight : ℚ := 1
  note : String := ""
deriving DecidableEq, Repr

/-- The per-node step of `kg_bulk`: wholesale `UPDATE` of every field
except `id` and `created_at` when the id exists, plain `INSERT`
otherwise. -/
def bulkApplyNode (now : Int) (st : Store) (n : NodeSpec) : Store :=
  if nodeExists st n.id then
    { st with nodes := st.nodes.map (fun m =>
        if m.id == n.id then
          { m with
              type := n.type, summary := n.summary, bands := n.bands, domain := n.domain
              status := n.status, kai_note := n.kai_note, meta := n.meta, updated_at := now }
        else m) }
  else
    { st with nodes := st.nodes ++
        [⟨n.id, n.type, n.summary, n.bands, n.domain, n.status, n.kai_note, n.meta, now, now⟩] }

/-- The edge loop of `kg_bulk`; any foreign-key violation raises, and
the surrounding transaction is never committed. -/
def bulkEdges (now : Int) (st : Store) : List EdgeSpec → Except String Store
  | [] => .ok st
  | e :: rest =>
    if nodeExists st e.source_id && nodeExists st e.target_id then
      bulkEdges now
        { st with edges :=
            insertOrReplaceEdge st.edges ⟨e.source_id, e.target_id, e.relation, e.weight, e.note, now⟩ }
        rest
    else .error "FOREIGN KEY constraint failed"

/-- `kg_bulk`: apply all node specs, then all edge specs, in one
transaction; report the processed counts. -/
def kg_bulk (st : Store) (now : Int) (ns : List NodeSpec) (es : List EdgeSpec) :
    Except String (Store × Nat × Nat) :=
  match bulkEdges now (ns.foldl (bulkApplyNode now) st) es with
  | .ok st2 => .ok (st2, ns.length, es.length)
  | .error m => .error m

/-- One `UPDATE nodes SET domain=?, updated_at=? WHERE id=?`. -/
def setDomainOne (domain : String) (now : Int) (st : Store) (nid : String) : Store :=
  { st with nodes := st.nodes.map (fun n =>
      if n.id == nid then { n with domain := domain, updated_at := now } else n) }

/-- `kg_bulk_set_domain`: reassign `domain` on each listed id (missing
ids update nothing) and report the length of the id list. -/
def kg_bulk_set_domain (st : Store) (now : Int) (domain : String) (ids : List String) :
    Store × Nat :=
  (ids.foldl (setDomainOne domain now) st, ids.length)

/-! ## Document tools -/

/-- Default of the `session_number` parameter of `kg_doc_create`. -/
def sessionDefault : Int := 0

/-- `kg_doc_create`: insert a fresh row verbatim (`doc_id` stands for
the generated `uuid4` token, see the module comment). -/
def kg_doc_create (st : Store) (doc_id : String) (now : Int) (title : String)
    (session_number : Int) (content : String) (node_ids : List String) : Store × String :=
  ({ st with documents := st.documents ++
      [⟨doc_id, title, content, session_number, node_ids, now, now⟩] },
   doc_id)

/-- Result payload of `kg_doc_append`. -/
structure DocAppendOk where
  id : String
  len : Nat
  nodes : Nat
deriving DecidableEq, Repr

/-- `kg_doc_append`: not-found error for a missing id; otherwise the new
content is `old + "\n" + new` and the node-id list becomes the union of
the old and supplied lists (`set(old) | set(new)` in the source; the
list order of a Python set is arbitrary, `dedup` picks one). -/
def kg_doc_append (st : Store) (now : Int) (id content : String) (nids : List String) :
    Resp (Store × DocAppendOk) :=
  match findDoc st id with
  | none => .error ("doc_not_found:" ++ id)
  | some row =>
    let newContent := row.content ++ "\n" ++ content
    let merged := (row.node_ids ++ nids).dedup
    let doc' := { row with content := newContent, node_ids := merged, updated_at := now }
    .ok ({ st with documents := st.documents.map (fun d => if d.id == id then doc' else d) },
         ⟨id, newContent.length, merged.length⟩)

/-- `kg_doc_read`: the full row, or a structured not-found error. -/
def kg_doc_read (st : Store) (id : String) : Resp Document :=
  match findDoc st id with
  | none => .error ("doc_not_found:" ++ id)
  | some row => .ok row

/-- `kg_doc_delete`: structured not-found error, or removal returning
the deleted title. -/
def kg_doc_delete (st : Store) (id : String) : Resp (Store × String) :=
  match findDoc st id with
  | none => .error ("doc_not_found:" ++ id)
  | some row =>
    .ok ({ st with documents := st.documents.filter (fun d => d.id != id) }, row.title)

/-- The `LIKE "%"+q+"%"` test of the document search: ASCII-case-folded
substring containment (see the module comment on `LIKE`). -/
def likeContains (q s : String) : Bool := 1 < (s.toLower.splitOn q.toLower).length

/-- The rows fetched by `kg_doc_search`: the three mutually exclusive
modes in source order (exact session number when `session > 0`, else
substring match when `q` is nonempty, else the recency listing). -/
def docSearchRows (st : Store) (q : String) (session : Int) (limit : Nat) : List Document :=
  if 0 < session then
    (sortBy docLeUpd (st.documents.filter (fun d => d.session_number == session))).take limit
  else if q ≠ "" then
    (sortBy docLeUpd (st.documents.filter (fun d =>
      likeContains q d.title || likeContains q d.content))).take limit
  else
    (sortBy docLeSessUpd st.documents).take limit

/-- Result payload of `kg_doc_search`. -/
structure DocSearchOk where
  q : String
  count : Nat
  docs : List DocIdx
deriving DecidableEq, Repr

/-- `kg_doc_search`: the fetched rows as index projections. -/
def kg_doc_search (st : Store) (q : String) (session : Int) (limit : Nat) : DocSearchOk :=
  let rows := docSearchRows st q session limit
  ⟨if q ≠ "" then q else "session:" ++ toString session, rows.length, rows.map docIdx⟩

/-! ## Invariant vocabulary for the mutation operations -/

/-- Frame law of the node table across one mutation: every pre-existing
id survives, and any post-state row carrying the id of a pre-state row
keeps that row's `created_at` while its `updated_at` never moves
backwards (given that the clock `now` is not in the past). -/
def preservesNode (stOld stNew : Store) (now : Int) : Prop :=
  ∀ n ∈ stOld.nodes, n.id ∈ stNew.nodes.map (fun m => m.id) ∧
    ∀ n' ∈ stNew.nodes, n'.id = n.id →
      n'.created_at = n.created_at ∧ (n.updated_at ≤ now → n.updated_at ≤ n'.updated_at)

/-- Refresh law: every row of the post state is either byte-for-byte a
pre-state row (untouched) or has `updated_at = now`. -/
def refreshLaw (stOld stNew : Store) (now : Int) : Prop :=
  ∀ n' ∈ stNew.nodes, n' ∈ stOld.nodes ∨ n'.updated_at = now

/-- Intermediate invariant threaded through the folds of the mutation
operations, relative to the pre state `st0` and the clock `now`. -/
def bulkInv (st0 cur : Store) (now : Int) : Prop :=
  (∀ n ∈ st0.nodes, n.id ∈ cur.nodes.map (fun m => m.id))
  ∧ ∀ n' ∈ cur.nodes,
      ((∃ n ∈ st0.nodes, n.id = n'.id ∧ n.created_at = n'.created_at ∧
          (n'.updated_at = n.updated_at ∨ n'.updated_at = now))
        ∨ (n'.created_at = now ∧ n'.updated_at = now
            ∧ n'.id ∉ st0.nodes.map (fun m => m.id)))
      ∧ (n' ∈ st0.nodes ∨ n'.updated_at = now)

/-! ## Concrete stores used to evaluate the operations -/

/-- A fresh node row carrying only an id, a domain and a timestamp. -/
def node0 (id domain : String) (t : Int) : Node :=
  ⟨id, "concept", "", [], domain, "seed", "", [], t, t⟩

/-- An edge row with default weight and note. -/
def edge0 (s t r : String) : Edge := ⟨s, t, r, 1, "", 0⟩

/-- Three nodes whose domains are "a", "ab" and "a.b". -/
def storeAB : Store :=
  { nodes := [node0 "nA" "a" 1, node0 "nAB" "ab" 2, node0 "nADB" "a.b" 3]
    edges := [], state := [], documents := [] }

/-- A node of type "metaphor" with two meta keys. -/
def exM : Node :=
  { node0 "n" "" 1 with type := "metaphor", meta := [("a", "1"), ("b", "2")] }

/-- A store holding only `exM`. -/
def storeM : Store :=
  { nodes := [exM], edges := [], state := [], documents := [] }

/-- A single node and no edges. -/
def storeX : Store :=
  { nodes := [node0 "x" "" 1], edges := [], state := [], documents := [] }

/-- A small graph: three nodes and four edges, including a parallel
edge pair and a cycle. -/
def storeG : Store :=
  { nodes := [node0 "a" "" 1, node0 "b" "" 2, node0 "c" "" 3]
    edges := [edge0 "a" "b" "contains", edge0 "b" "c" "contains",
              edge0 "a" "b" "mirrors", edge0 "c" "a" "contains"]
    state := [], documents := [] }

/-- Session state whose counter reads "3". -/
def storeS : Store :=
  { nodes := [], edges := [], state := [⟨"session_count", "3", 0⟩], documents := [] }

/-- One document with content "line1" and one linked node id. -/
def storeD : Store :=
  { nodes := [], edges := [], state := []
    documents := [⟨"d1", "t", "line1", 0, ["n1"], 0, 0⟩] }

/-- The empty database. -/
def storeEmpty : Store := { nodes := [], edges := [], state := [], documents := [] }

/-! ## Basic lemmas about the helpers -/

lemma mem_setAdd {l : List String} {y x : String} :
    x ∈ setAdd l y ↔ x ∈ l ∨ x = y := by
  unfold setAdd
  split
  · constructor
    · exact Or.inl
    · rintro (hx | rfl)
      · exact hx
      · assumption
  · simp [List.mem_append]

lemma mem_insertSorted {α : Type} (le : α → α → Bool) (a x : α) :
    ∀ l : List α, x ∈ insertSorted le a l ↔ x = a ∨ x ∈ l
  | [] => by simp [insertSorted]
  | y :: ys => by
    unfold insertSorted
    split
    · simp [List.mem_cons]
    · simp only [List.mem_cons, mem_insertSorted le a x ys]
      tauto

lemma mem_sortBy {α : Type} (le : α → α → Bool) (x : α) :
    ∀ l : List α, x ∈ sortBy le l ↔ x ∈ l
  | [] => by simp [sortBy]
  | y :: ys => by
    show x ∈ insertSorted le y (sortBy le ys) ↔ _
    rw [mem_insertSorted, mem_sortBy le x ys]
    simp [List.mem_cons]

lemma lookupStr_cons (kv : String × String) (l : List (String × String)) (k : String) :
    lookupStr (kv :: l) k = if kv.1 = k then some kv.2 else lookupStr l k := by
  unfold lookupStr
  by_cases h : kv.1 = k
  · rw [List.find?_cons_of_pos _ (by simpa using h)]
    simp [h]
  · rw [List.find?_cons_of_neg _ (by simpa using h)]
    simp [h]

lemma lookupStr_append (l1 l2 : List (String × String)) (k : String) :
    lookupStr (l1 ++ l2) k =
      match lookupStr l1 k with
      | some v => some v
      | none => lookupStr l2 k := by
  induction l1 with
  | nil => simp [lookupStr]
  | cons a l1 ih =>
    rw [List.cons_append, lookupStr_cons, lookupStr_cons]
    by_cases h : a.1 = k
    · simp [h]
    · simp [h, ih]

lemma lookupStr_map_upd (new : List (String × String)) (k : String) :
    ∀ old : List (String × String),
      lookupStr (old.map (fun kv =>
        match lookupStr new kv.1 with
        | some v => (kv.1, v)
        | none => kv)) k
      = (lookupStr old k).map (fun v => (lookupStr new k).getD v)
  | [] => by simp [lookupStr]
  | (a, b) :: old => by
    have ih := lookupStr_map_upd new k old
    cases hn : lookupStr new a with
    | some v =>
      have hhead : (match lookupStr new ((a, b) : String × String).1 with
          | some w => (((a, b) : String × String).1, w)
          | none => ((a, b) : String × String)) = ((a, v) : String × String) := by
        simp [hn]
      rw [List.map_cons]
      rw [hhead]
      rw [lookupStr_cons, lookupStr_cons]
      by_cases hak : a = k
      · subst hak
        simp [hn]
      · simp [hak, ih]
    | none =>
      have hhead : (match lookupStr new ((a, b) : String × String).1 with
          | some w => (((a, b) : String × String).1, w)
          | none => ((a, b) : String × String)) = ((a, b) : String × String) := by
        simp [hn]
      rw [List.map_cons]
      rw [hhead]
      rw [lookupStr_cons, lookupStr_cons]
      by_cases hak : a = k
      · subst hak
        simp [hn]
      · simp [hak, ih]

lemma lookupStr_filter (p : String → Bool) (l : List (String × String)) (k : String) :
    lookupStr (l.filter (fun kv => p kv.1)) k = if p k then lookupStr l k else none := by
  induction l with
  | nil => simp [lookupStr]
  | cons a l ih =>
    rw [List.filter_cons]
    by_cases hp : p a.1
    · rw [if_pos (by simpa using hp), lookupStr_cons, lookupStr_cons]
      by_cases hak : a.1 = k
      · rw [if_pos hak, if_pos hak]
        rw [hak] at hp
        rw [if_pos hp]
      · rw [if_neg hak, ih]
        by_cases hpk : p k
        · rw [if_pos hpk, if_pos hpk, if_neg hak]
        · rw [if_neg hpk, if_neg hpk]
    · rw [if_neg (by simpa using hp), ih, lookupStr_cons]
      by_cases hak : a.1 = k
      · rw [hak] at hp
        rw [if_neg hp, if_neg hp]
      · by_cases hpk : p k
        · rw [if_pos hpk, if_pos hpk, if_neg hak]
        · rw [if_neg hpk, if_neg hpk]

lemma dictUpdate_lookupStr (old new : List (String × String)) (k : String) :
    lookupStr (dictUpdate old new) k =
      match lookupStr old k with
      | some v => some ((lookupStr new k).getD v)
      | none => lookupStr new k := by
  unfold dictUpdate
  rw [lookupStr_append, lookupStr_map_upd]
  cases ho : lookupStr old k with
  | some v => simp
  | none =>
    simp only [Option.map_none']
    have := lookupStr_filter (fun key => (lookupStr old key).isNone) new k
    simp only [ho, Option.isNone_none, if_pos] at this
    exact this

/-! ## Lemmas about lookups and updates of keyed rows -/

lemma find?_append_none {α : Type} (p : α → Bool) (l2 : List α) :
    ∀ l1 : List α, (∀ x ∈ l1, p x = false) → (l1 ++ l2).find? p = l2.find? p
  | [], _ => rfl
  | a :: l1, h => by
    rw [List.cons_append, List.find?_cons_of_neg _ (by simp [h a (List.mem_cons_self a l1)])]
    exact find?_append_none p l2 l1 (fun x hx => h x (List.mem_cons_of_mem a hx))

/-- Replacing, in place, every element satisfying `p` by the fixed
element `x'` (which satisfies `p`) makes `find? p` return `x'`,
provided some element satisfied `p` before. -/
lemma find?_update_eq {α : Type} (p : α → Bool) (x' : α) (hx' : p x' = true) :
    ∀ l : List α, (l.find? p).isSome →
      (l.map (fun a => if p a then x' else a)).find? p = some x'
  | [], h => by simp [List.find?] at h
  | a :: l, h => by
    by_cases ha : p a
    · rw [List.map_cons, if_pos ha, List.find?_cons_of_pos _ hx']
    · rw [List.map_cons, if_neg ha, List.find?_cons_of_neg _ ha]
      rw [List.find?_cons_of_neg _ ha] at h
      exact find?_update_eq p x' hx' l h

lemma findNode_some {st : Store} {id : String} {n : Node} (h : findNode st id = some n) :
    n ∈ st.nodes ∧ n.id = id := by
  unfold findNode at h
  refine ⟨List.mem_of_find?_eq_some h, ?_⟩
  have := List.find?_some h
  simpa using this

lemma findNode_none {st : Store} {id : String} (h : findNode st id = none) :
    ∀ n ∈ st.nodes, n.id ≠ id := by
  unfold findNode at h
  rw [List.find?_eq_none] at h
  intro n hn
  simpa using h n hn

lemma findDoc_some {st : Store} {id : String} {d : Document} (h : findDoc st id = some d) :
    d ∈ st.documents ∧ d.id = id := by
  unfold findDoc at h
  refine ⟨List.mem_of_find?_eq_some h, ?_⟩
  have := List.find?_some h
  simpa using this

lemma nodeExists_iff (st : Store) (id : String) :
    nodeExists st id = true ↔ ∃ n ∈ st.nodes, n.id = id := by
  unfold nodeExists
  rw [List.any_eq_true]
  constructor
  · rintro ⟨n, hn, hid⟩
    exact ⟨n, hn, by simpa using hid⟩
  · rintro ⟨n, hn, hid⟩
    exact ⟨n, hn, by simpa using hid⟩

lemma nodeExists_eq_false_of_findNode_none {st : Store} {id : String}
    (h : findNode st id = none) : nodeExists st id = false := by
  by_contra hc
  have : nodeExists st id = true := by
    cases hne : nodeExists st id
    · exact absurd hne hc
    · rfl
  rcases (nodeExists_iff st id).1 this with ⟨n, hn, hid⟩
  exact findNode_none h n hn hid

/-! ## Deduplication by triple -/

lemma dedup_fold_inv :
    ∀ (es : List Edge) (seen : List (String × String × String)) (ue : List Edge),
      seen = ue.map tripleOf → seen.Nodup →
      (es.foldl dedupStep (seen, ue)).1 = (es.foldl dedupStep (seen, ue)).2.map tripleOf
      ∧ (es.foldl dedupStep (seen, ue)).1.Nodup
  | [], seen, ue, h1, h2 => ⟨h1, h2⟩
  | e :: es, seen, ue, h1, h2 => by
    rw [List.foldl_cons]
    show (es.foldl dedupStep (dedupStep (seen, ue) e)).1 = _ ∧ _
    unfold dedupStep
    by_cases hm : tripleOf e ∈ seen
    · simpa [hm] using dedup_fold_inv es seen ue h1 h2
    · simp only [hm, if_neg, not_false_iff]
      apply dedup_fold_inv es
      · rw [h1, List.map_append, List.map_singleton]
      · rw [List.nodup_append]
        exact ⟨h2, List.nodup_singleton _, by simpa using hm⟩

/-- The edge list both traversal tools return carries no duplicate
`(source, relation, target)` triple. -/
lemma dedupEdges_nodup (es : List Edge) : ((dedupEdges es).map tripleOf).Nodup := by
  have h := dedup_fold_inv es [] [] (by simp) List.nodup_nil
  unfold dedupEdges
  rw [← h.1]
  exact h.2

/-! ## Reachability lemmas -/

lemma reachable_le {edges : List Edge} {seed : String} {j k : Nat} (h : j ≤ k) :
    ∀ {x : String}, reachableWithin edges seed j x → reachableWithin edges seed k x := by
  induction h with
  | refl => exact fun hx => hx
  | step _ ih =>
    intro x hx
    exact Or.inl (ih hx)

lemma adjE_of_mem_src {edges : List Edge} {e : Edge} (he : e ∈ edges) {a b : String}
    (hsrc : e.source_id = a) (htgt : e.target_id = b) : adjE edges a b :=
  ⟨e, he, Or.inl ⟨hsrc, htgt⟩⟩

lemma adjE_of_mem_tgt {edges : List Edge} {e : Edge} (he : e ∈ edges) {a b : String}
    (htgt : e.target_id = a) (hsrc : e.source_id = b) : adjE edges a b :=
  ⟨e, he, Or.inr ⟨htgt, hsrc⟩⟩

/-! ## kg_get loop lemmas -/

lemma gScan_fold_nf (visited : List String) (other : Edge → String) :
    ∀ (es : List Edge) (acc : GAcc) (x : String),
      x ∈ (es.foldl (gScan visited other) acc).nf →
      x ∈ acc.nf ∨ ∃ e ∈ es, other e = x
  | [], _, _, h => Or.inl h
  | e :: es, acc, x, h => by
    rw [List.foldl_cons] at h
    rcases gScan_fold_nf visited other es (gScan visited other acc e) x h with
      h1 | ⟨e', he', hx⟩
    · unfold gScan at h1
      dsimp only at h1
      by_cases hv : other e ∈ visited
      · rw [if_pos hv] at h1
        exact Or.inl h1
      · rw [if_neg hv] at h1
        rcases mem_setAdd.1 h1 with h2 | h2
        · exact Or.inl h2
        · exact Or.inr ⟨e, List.mem_cons_self e es, h2.symm⟩
    · exact Or.inr ⟨e', List.mem_cons_of_mem e he', hx⟩

lemma gScan_fold_nids (visited : List String) (other : Edge → String) :
    ∀ (es : List Edge) (acc : GAcc) (x : String),
      x ∈ (es.foldl (gScan visited other) acc).nids →
      x ∈ acc.nids ∨ ∃ e ∈ es, other e = x
  | [], _, _, h => Or.inl h
  | e :: es, acc, x, h => by
    rw [List.foldl_cons] at h
    rcases gScan_fold_nids visited other es (gScan visited other acc e) x h with
      h1 | ⟨e', he', hx⟩
    · unfold gScan at h1
      dsimp only at h1
      by_cases hv : other e ∈ visited
      · rw [if_pos hv] at h1
        exact Or.inl h1
      · rw [if_neg hv] at h1
        rcases mem_setAdd.1 h1 with h2 | h2
        · exact Or.inl h2
        · exact Or.inr ⟨e, List.mem_cons_self e es, h2.symm⟩
    · exact Or.inr ⟨e', List.mem_cons_of_mem e he', hx⟩

lemma gProcess_nf (allEdges : List Edge) (visited : List String) (acc : GAcc)
    (nid x : String) (h : x ∈ (gProcess allEdges visited acc nid).nf) :
    x ∈ acc.nf ∨ adjE allEdges nid x := by
  unfold gProcess at h
  rcases gScan_fold_nf visited (fun e => e.source_id) _ _ x h with h1 | ⟨e, he, hx⟩
  · rcases gScan_fold_nf visited (fun e => e.target_id) _ _ x h1 with h2 | ⟨e, he, hx⟩
    · exact Or.inl h2
    · rw [List.mem_filter] at he
      exact Or.inr (adjE_of_mem_src he.1 (by simpa using he.2) hx)
  · rw [List.mem_filter] at he
    exact Or.inr (adjE_of_mem_tgt he.1 (by simpa using he.2) hx)

lemma gProcess_nids (allEdges : List Edge) (visited : List String) (acc : GAcc)
    (nid x : String) (h : x ∈ (gProcess allEdges visited acc nid).nids) :
    x ∈ acc.nids ∨ adjE allEdges nid x := by
  unfold gProcess at h
  rcases gScan_fold_nids visited (fun e => e.source_id) _ _ x h with h1 | ⟨e, he, hx⟩
  · rcases gScan_fold_nids visited (fun e => e.target_id) _ _ x h1 with h2 | ⟨e, he, hx⟩
    · exact Or.inl h2
    · rw [List.mem_filter] at he
      exact Or.inr (adjE_of_mem_src he.1 (by simpa using he.2) hx)
  · rw [List.mem_filter] at he
    exact Or.inr (adjE_of_mem_tgt he.1 (by simpa using he.2) hx)

lemma gProcess_fold_nf (allEdges : List Edge) (visited : List String) :
    ∀ (fr : List String) (acc : GAcc) (x : String),
      x ∈ (fr.foldl (gProcess allEdges visited) acc).nf →
      x ∈ acc.nf ∨ ∃ y ∈ fr, adjE allEdges y x
  | [], _, _, h => Or.inl h
  | nid :: fr, acc, x, h => by
    rw [List.foldl_cons] at h
    rcases gProcess_fold_nf allEdges visited fr _ x h with h1 | ⟨y, hy, hadj⟩
    · rcases gProcess_nf allEdges visited acc nid x h1 with h2 | hadj
      · exact Or.inl h2
      · exact Or.inr ⟨nid, List.mem_cons_self nid fr, hadj⟩
    · exact Or.inr ⟨y, List.mem_cons_of_mem nid hy, hadj⟩

lemma gProcess_fold_nids (allEdges : List Edge) (visited : List String) :
    ∀ (fr : List String) (acc : GAcc) (x : String),
      x ∈ (fr.foldl (gProcess allEdges visited) acc).nids →
      x ∈ acc.nids ∨ ∃ y ∈ fr, adjE allEdges y x
  | [], _, _, h => Or.inl h
  | nid :: fr, acc, x, h => by
    rw [List.foldl_cons] at h
    rcases gProcess_fold_nids allEdges visited fr _ x h with h1 | ⟨y, hy, hadj⟩
    · rcases gProcess_nids allEdges visited acc nid x h1 with h2 | hadj
      · exact Or.inl h2
      · exact Or.inr ⟨nid, List.mem_cons_self nid fr, hadj⟩
    · exact Or.inr ⟨y, List.mem_cons_of_mem nid hy, hadj⟩

lemma gLoop_nids_reach (allEdges : List Edge) (seed : String) (N : Nat) :
    ∀ (k : Nat) (edges : List Edge) (nids visited frontier : List String) (j : Nat),
      j + k ≤ N →
      (∀ x ∈ frontier, reachableWithin allEdges seed j x) →
      (∀ x ∈ nids, reachableWithin allEdges seed N x) →
      ∀ x ∈ (gLoop allEdges k edges nids visited frontier).2,
        reachableWithin allEdges seed N x
  | 0, edges, nids, visited, frontier, j, hjk, hf, hn => fun x hx => hn x hx
  | k + 1, edges, nids, visited, frontier, j, hjk, hf, hn => by
    intro x hx
    have hstep : gLoop allEdges (k + 1) edges nids visited frontier =
        gLoop allEdges k
          (frontier.foldl (gProcess allEdges visited) ⟨edges, [], nids⟩).edges
          (frontier.foldl (gProcess allEdges visited) ⟨edges, [], nids⟩).nids
          (listUnion visited (frontier.foldl (gProcess allEdges visited) ⟨edges, [], nids⟩).nf)
          (frontier.foldl (gProcess allEdges visited) ⟨edges, [], nids⟩).nf := rfl
    rw [hstep] at hx
    refine gLoop_nids_reach allEdges seed N k _ _ _ _ (j + 1) (by omega) ?_ ?_ x hx
    · intro y hy
      rcases gProcess_fold_nf allEdges visited frontier _ y hy with h0 | ⟨z, hz, hadj⟩
      · simp at h0
      · exact Or.inr ⟨z, hf z hz, hadj⟩
    · intro y hy
      rcases gProcess_fold_nids allEdges visited frontier _ y hy with h0 | ⟨z, hz, hadj⟩
      · exact hn y h0
      · have hr : reachableWithin allEdges seed (j + 1) y := Or.inr ⟨z, hf z hz, hadj⟩
        exact reachable_le (by omega) hr

/-! ## kg_traverse loop lemmas -/

lemma tScan_fold_visited (other : Edge → String) :
    ∀ (es : List Edge) (acc : TAcc),
      (es.foldl (tScan other) acc).visited = acc.visited
      ∧ (es.foldl (tScan other) acc).vn = acc.vn
  | [], _ => ⟨rfl, rfl⟩
  | e :: es, acc => by
    rw [List.foldl_cons]
    exact tScan_fold_visited other es (tScan other acc e)

lemma tScan_fold_nf (other : Edge → String) :
    ∀ (es : List Edge) (acc : TAcc) (x : String),
      x ∈ (es.foldl (tScan other) acc).nf →
      x ∈ acc.nf ∨ ∃ e ∈ es, other e = x
  | [], _, _, h => Or.inl h
  | e :: es, acc, x, h => by
    rw [List.foldl_cons] at h
    rcases tScan_fold_nf other es (tScan other acc e) x h with h1 | ⟨e', he', hx⟩
    · unfold tScan at h1
      dsimp only at h1
      by_cases hv : other e ∈ acc.visited
      · rw [if_pos hv] at h1
        exact Or.inl h1
      · rw [if_neg hv] at h1
        rcases mem_setAdd.1 h1 with h2 | h2
        · exact Or.inl h2
        · exact Or.inr ⟨e, List.mem_cons_self e es, h2.symm⟩
    · exact Or.inr ⟨e', List.mem_cons_of_mem e he', hx⟩

lemma tVisit_nf (st : Store) (rf : Option String) (ex : Bool) (acc : TAcc)
    (nid x : String) (h : x ∈ (tVisit st rf ex acc nid).nf) :
    x ∈ acc.nf ∨ adjE st.edges nid x := by
  unfold tVisit at h
  by_cases hv : nid ∈ acc.visited
  · rw [if_pos hv] at h
    exact Or.inl h
  · rw [if_neg hv] at h
    cases ex with
    | false =>
      rw [if_neg (by simp)] at h
      exact Or.inl h
    | true =>
      rw [if_pos rfl] at h
      rcases tScan_fold_nf (fun e => e.source_id) _ _ x h with h1 | ⟨e, he, hx⟩
      · rcases tScan_fold_nf (fun e => e.target_id) _ _ x h1 with h2 | ⟨e, he, hx⟩
        · exact Or.inl h2
        · rw [List.mem_filter] at he
          have hsrc : e.source_id = nid := by
            have h3 := he.2
            rw [Bool.and_eq_true] at h3
            simpa using h3.1
          exact Or.inr (adjE_of_mem_src he.1 hsrc hx)
      · rw [List.mem_filter] at he
        have htgt : e.target_id = nid := by
          have h3 := he.2
          rw [Bool.and_eq_true] at h3
          simpa using h3.1
        exact Or.inr (adjE_of_mem_tgt he.1 htgt hx)

lemma tScan_fold_vn (other : Edge → String) (es : List Edge) (acc : TAcc) :
    (es.foldl (tScan other) acc).vn = acc.vn :=
  (tScan_fold_visited other es acc).2

lemma tScan_fold_vis (other : Edge → String) (es : List Edge) (acc : TAcc) :
    (es.foldl (tScan other) acc).visited = acc.visited :=
  (tScan_fold_visited other es acc).1

lemma tVisit_vn (st : Store) (rf : Option String) (ex : Bool) (acc : TAcc)
    (nid : String) (p : String × Node) (h : p ∈ (tVisit st rf ex acc nid).vn) :
    p ∈ acc.vn ∨ p.1 = nid := by
  unfold tVisit at h
  by_cases hv : nid ∈ acc.visited
  · rw [if_pos hv] at h
    exact Or.inl h
  · rw [if_neg hv] at h
    have hcore : ∀ hp : p ∈ (match findNode st nid with
        | some row => acc.vn ++ [(nid, row)]
        | none => acc.vn), p ∈ acc.vn ∨ p.1 = nid := by
      intro hp
      cases hfn : findNode st nid with
      | some row =>
        rw [hfn] at hp
        rcases List.mem_append.1 hp with h1 | h1
        · exact Or.inl h1
        · rcases List.mem_singleton.1 h1 with rfl
          exact Or.inr rfl
      | none =>
        rw [hfn] at hp
        exact Or.inl hp
    cases ex with
    | false =>
      rw [if_neg (by simp)] at h
      exact hcore h
    | true =>
      rw [if_pos rfl] at h
      dsimp only at h
      rw [tScan_fold_vn, tScan_fold_vn] at h
      exact hcore h

lemma tVisit_visited (st : Store) (rf : Option String) (ex : Bool) (acc : TAcc)
    (nid : String) (x : String) (h : x ∈ (tVisit st rf ex acc nid).visited) :
    x ∈ acc.visited ∨ x = nid := by
  unfold tVisit at h
  by_cases hv : nid ∈ acc.visited
  · rw [if_pos hv] at h
    exact Or.inl h
  · rw [if_neg hv] at h
    have hcore : ∀ hp : x ∈ acc.visited ++ [nid], x ∈ acc.visited ∨ x = nid := by
      intro hp
      rcases List.mem_append.1 hp with h1 | h1
      · exact Or.inl h1
      · exact Or.inr (List.mem_singleton.1 h1)
    cases ex with
    | false =>
      rw [if_neg (by simp)] at h
      exact hcore h
    | true =>
      rw [if_pos rfl] at h
      dsimp only at h
      rw [tScan_fold_vis, tScan_fold_vis] at h
      exact hcore h

lemma tVisit_fold_nf (st : Store) (rf : Option String) (ex : Bool) :
    ∀ (fr : List String) (acc : TAcc) (x : String),
      x ∈ (fr.foldl (tVisit st rf ex) acc).nf →
      x ∈ acc.nf ∨ ∃ y ∈ fr, adjE st.edges y x
  | [], _, _, h => Or.inl h
  | nid :: fr, acc, x, h => by
    rw [List.foldl_cons] at h
    rcases tVisit_fold_nf st rf ex fr _ x h with h1 | ⟨y, hy, hadj⟩
    · rcases tVisit_nf st rf ex acc nid x h1 with h2 | hadj
      · exact Or.inl h2
      · exact Or.inr ⟨nid, List.mem_cons_self nid fr, hadj⟩
    · exact Or.inr ⟨y, List.mem_cons_of_mem nid hy, hadj⟩

lemma tVisit_fold_vn (st : Store) (rf : Option String) (ex : Bool) :
    ∀ (fr : List String) (acc : TAcc) (p : String × Node),
      p ∈ (fr.foldl (tVisit st rf ex) acc).vn →
      p ∈ acc.vn ∨ p.1 ∈ fr
  | [], _, _, h => Or.inl h
  | nid :: fr, acc, p, h => by
    rw [List.foldl_cons] at h
    rcases tVisit_fold_vn st rf ex fr _ p h with h1 | h1
    · rcases tVisit_vn st rf ex acc nid p h1 with h2 | h2
      · exact Or.inl h2
      · exact Or.inr (h2 ▸ List.mem_cons_self nid fr)
    · exact Or.inr (List.mem_cons_of_mem nid h1)

lemma tLoop_vn_reach (st : Store) (rf : Option String) (seed : String) (N : Nat) :
    ∀ (r : Nat) (frontier : List String) (acc : TAcc) (j : Nat),
      j + r ≤ N + 1 →
      (∀ x ∈ frontier, reachableWithin st.edges seed j x) →
      (∀ p ∈ acc.vn, reachableWithin st.edges seed N p.1) →
      ∀ p ∈ (tLoop st rf r frontier acc).vn, reachableWithin st.edges seed N p.1
  | 0, frontier, acc, j, hjr, hf, hvn => hvn
  | r + 1, frontier, acc, j, hjr, hf, hvn => by
    intro p hp
    have hstep : tLoop st rf (r + 1) frontier acc =
        tLoop st rf r
          (frontier.foldl (tVisit st rf (0 < r)) { acc with nf := [] }).nf
          (frontier.foldl (tVisit st rf (0 < r)) { acc with nf := [] }) := rfl
    rw [hstep] at hp
    refine tLoop_vn_reach st rf seed N r _ _ (j + 1) (by omega) ?_ ?_ p hp
    · intro y hy
      rcases tVisit_fold_nf st rf _ frontier _ y hy with h0 | ⟨z, hz, hadj⟩
      · simp at h0
      · exact Or.inr ⟨z, hf z hz, hadj⟩
    · intro q hq
      rcases tVisit_fold_vn st rf _ frontier _ q hq with h0 | h1
      · exact hvn q h0
      · have hr : reachableWithin st.edges seed j q.1 := hf q.1 h1
        exact reachable_le (by omega) hr

/-! ## Claim theorems -/

/-- C5: for every traversal call, the returned edge list contains no two
entries with the same (source, relation, target) triple, and the
returned node set stays within the set of nodes reachable from the seed
within the stated hop bound over undirected adjacency. -/
theorem traversal_dedup_and_hop_bound (st : Store) (id : String) (hops : Nat)
    (start_id : String) (max_hops : Nat) (relation_filter : String) :
    (∀ r : GetOk, kg_get st id hops = .ok r →
      ((r.edges.map tripleOf).Nodup ∧
        ∀ p ∈ r.neighbors, reachableWithin st.edges id hops p.1))
    ∧ ((kg_traverse st start_id max_hops relation_filter).edges.map tripleOf).Nodup
    ∧ (∀ p ∈ (kg_traverse st start_id max_hops relation_filter).nodes,
        reachableWithin st.edges start_id max_hops p.1) := by
  refine ⟨?_, ?_, ?_⟩
  · intro r hr
    unfold kg_get at hr
    cases hfn : findNode st id with
    | none =>
      rw [hfn] at hr
      cases hr
    | some row =>
      rw [hfn] at hr
      dsimp only at hr
      injection hr with hr2
      subst hr2
      constructor
      · exact dedupEdges_nodup _
      · intro p hp
        rcases List.mem_filterMap.1 hp with ⟨nid, hnid, hfm⟩
        have hp1 : p.1 = nid := by
          cases hfd : findNode st nid with
          | none =>
            rw [hfd] at hfm
            cases hfm
          | some n =>
            rw [hfd] at hfm
            injection hfm with hfm2
            subst hfm2
            rfl
        rw [hp1]
        have hreach : reachableWithin st.edges id (min hops 3) nid := by
          refine gLoop_nids_reach st.edges id (min hops 3) (min hops 3) [] [] [id] [id] 0
            (by omega) ?_ ?_ nid hnid
          · intro x hx
            rw [List.mem_singleton] at hx
            subst hx
            rfl
          · intro x hx
            exact absurd hx (List.not_mem_nil x)
        exact reachable_le (Nat.min_le_left hops 3) hreach
  · exact dedupEdges_nodup _
  · intro p hp
    refine tLoop_vn_reach st (if relation_filter == "" then none else some relation_filter)
      start_id max_hops (max_hops + 1) [start_id] ⟨[], [], [], []⟩ 0 (by omega) ?_ ?_ p hp
    · intro x hx
      rw [List.mem_singleton] at hx
      subst hx
      rfl
    · intro q hq
      exact absurd hq (List.not_mem_nil q)

/-- Witness for C5 at a concrete store, seed and bounds. -/
theorem traversal_dedup_and_hop_bound_witness :
    (∀ r : GetOk, kg_get storeG "a" 1 = .ok r →
      ((r.edges.map tripleOf).Nodup ∧
        ∀ p ∈ r.neighbors, reachableWithin storeG.edges "a" 1 p.1))
    ∧ ((kg_traverse storeG "a" 2 "").edges.map tripleOf).Nodup
    ∧ (∀ p ∈ (kg_traverse storeG "a" 2 "").nodes,
        reachableWithin storeG.edges "a" 2 p.1) :=
  traversal_dedup_and_hop_bound storeG "a" 1 "a" 2 ""

/-- After the update branch of an upsert replaced every row with the
target id by the fixed row `n'` (whose id is that id), the point lookup
returns `n'`. -/
lemma findNode_after_update (st : Store) (id : String) (n' : Node) (hid : n'.id = id)
    (hsome : (findNode st id).isSome) :
    findNode { st with nodes := st.nodes.map (fun n => if n.id == id then n' else n) } id
      = some n' := by
  unfold findNode
  dsimp only
  exact find?_update_eq (fun n : Node => n.id == id) n' (by simpa using hid) st.nodes hsome

/-- C1 (divergence witnessed): loading domain name "a" selects the node
whose domain is "ab", although "ab" neither equals "a" nor extends it at
a dot boundary — the `LIKE` pattern `name + "%"` is a plain prefix
match, not the dot-boundary selection the specification requires. -/
theorem kg_load_domain_plain_prefix_includes_ab :
    ((kg_load_domain storeAB "a" "full").nodes.map (fun n => n.domain)) = ["a", "a.b", "ab"]
    ∧ ("ab" ≠ "a" ∧ ("a" ++ ".").data.isPrefixOf "ab".data = false) := by
  decide

/-- C2 counterexample: node "n" has type "metaphor"; an upsert that
populates only `summary` (every other argument left at its declared
default, in particular `type = typeDefault`) overwrites the stored type
with the default "concept". -/
theorem kg_put_node_default_type_overwrites :
    (findNode storeM "n").map (fun n => n.type) = some "metaphor"
    ∧ (findNode (kg_put_node storeM 5 "n" typeDefault "hello" [] "" statusDefault "" []).1
        "n").map (fun n => n.type) = some "concept"
    ∧ typeDefault ≠ "metaphor" := by
  decide

/-- C2 (amended): for an existing node, `kg_put_node` leaves every
scalar field whose supplied value is the empty string unchanged (and
`bands` when the supplied list is empty), and deep-merges `meta`:
supplied keys win, existing keys not present in the update survive.
Absent `type`/`status` arguments take the non-empty defaults "concept"
and "seed" and therefore do overwrite. -/
theorem kg_put_node_merge_semantics (st : Store) (now : Int)
    (id type summary : String) (bands : List Int)
    (domain status kai_note : String) (meta : List (String × String))
    (ex : Node) (hfind : findNode st id = some ex) :
    ∃ n', findNode (kg_put_node st now id type summary bands domain status kai_note meta).1 id
        = some n'
      ∧ (type = "" → n'.type = ex.type)
      ∧ (summary = "" → n'.summary = ex.summary)
      ∧ (status = "" → n'.status = ex.status)
      ∧ (kai_note = "" → n'.kai_note = ex.kai_note)
      ∧ (domain = "" → n'.domain = ex.domain)
      ∧ (bands = [] → n'.bands = ex.bands)
      ∧ (∀ k v, lookupStr meta k = some v → lookupStr n'.meta k = some v)
      ∧ (∀ k, lookupStr meta k = none → lookupStr n'.meta k = lookupStr ex.meta k) := by
  have hexid : ex.id = id := (findNode_some hfind).2
  unfold kg_put_node
  rw [hfind]
  dsimp only
  refine ⟨_, findNode_after_update st id _ hexid (by rw [hfind]; rfl),
    ?_, ?_, ?_, ?_, ?_, ?_, ?_, ?_⟩
  · intro h
    simp [h]
  · intro h
    simp [h]
  · intro h
    simp [h]
  · intro h
    simp [h]
  · intro h
    simp [h]
  · intro h
    simp [h]
  · intro k v hkv
    by_cases hm : meta = []
    · rw [hm] at hkv
      simp [lookupStr] at hkv
    · dsimp only
      rw [if_pos hm, dictUpdate_lookupStr]
      cases ho : lookupStr ex.meta k with
      | some w => simp [hkv]
      | none => simp [hkv]
  · intro k hk
    by_cases hm : meta = []
    · dsimp only
      rw [if_neg (by simpa using hm)]
    · dsimp only
      rw [if_pos hm, dictUpdate_lookupStr]
      cases ho : lookupStr ex.meta k with
      | some w => simp [hk, ho]
      | none => simp [hk, ho]

/-- Witness for the amended C2 at a concrete node and update. -/
theorem kg_put_node_merge_semantics_witness :
    findNode storeM "n" = some exM
    ∧ (∃ n', findNode (kg_put_node storeM 7 "n" "" "" [] "" "" "" [("b", "9")]).1 "n" = some n'
      ∧ ("" = "" → n'.type = exM.type)
      ∧ ("" = "" → n'.summary = exM.summary)
      ∧ ("" = "" → n'.status = exM.status)
      ∧ ("" = "" → n'.kai_note = exM.kai_note)
      ∧ ("" = "" → n'.domain = exM.domain)
      ∧ (([] : List Int) = [] → n'.bands = exM.bands)
      ∧ (∀ k v, lookupStr [("b", "9")] k = some v → lookupStr n'.meta k = some v)
      ∧ (∀ k, lookupStr [("b", "9")] k = none → lookupStr n'.meta k = lookupStr exM.meta k)) :=
  ⟨by decide,
   kg_put_node_merge_semantics storeM 7 "n" "" "" [] "" "" "" [("b", "9")] exM (by decide)⟩

/-- C3: an edge upsert whose source or target id has no node row fails
with the store-level foreign-key error (a raised exception, not a
structured error payload), and the store is unchanged. -/
theorem kg_put_edge_missing_endpoint_raises (st : Store) (now : Int)
    (source_id target_id relation : String) (weight : ℚ) (note : String)
    (h : findNode st source_id = none ∨ findNode st target_id = none) :
    kg_put_edge st now source_id target_id relation weight note
      = .error "FOREIGN KEY constraint failed"
    ∧ putEdgeStore st now source_id target_id relation weight note = st := by
  have hguard : (nodeExists st source_id && nodeExists st target_id) = false := by
    rcases h with h | h
    · rw [nodeExists_eq_false_of_findNode_none h, Bool.false_and]
    · rw [nodeExists_eq_false_of_findNode_none h, Bool.and_false]
  constructor
  · unfold kg_put_edge
    rw [hguard]
    simp
  · unfold putEdgeStore kg_put_edge
    rw [hguard]
    simp

/-- Witness for C3: upserting an edge toward the nonexistent node "y". -/
theorem kg_put_edge_missing_endpoint_raises_witness :
    (findNode storeX "x" = none ∨ findNode storeX "y" = none)
    ∧ (kg_put_edge storeX 0 "x" "y" "contains" 1 "" = .error "FOREIGN KEY constraint failed"
      ∧ putEdgeStore storeX 0 "x" "y" "contains" 1 "" = storeX) :=
  ⟨Or.inr (by decide),
   kg_put_edge_missing_endpoint_raises storeX 0 "x" "y" "contains" 1 "" (Or.inr (by decide))⟩

/-- C4: deleting a node removes every edge whose source or target is the
deleted id (given the store's foreign-key invariant), deleting a
nonexistent id leaves the store unchanged, and the call always reports
success. -/
theorem kg_delete_node_cascade_and_noop (st : Store) (id : String)
    (hFK : ∀ e ∈ st.edges,
      nodeExists st e.source_id = true ∧ nodeExists st e.target_id = true) :
    (∀ e ∈ (kg_delete_node st id).1.edges, e.source_id ≠ id ∧ e.target_id ≠ id)
    ∧ (findNode st id = none → (kg_delete_node st id).1 = st)
    ∧ (kg_delete_node st id).2 = ⟨"deleted", id⟩ := by
  refine ⟨?_, ?_, rfl⟩
  · intro e he
    unfold kg_delete_node at he
    dsimp only at he
    by_cases hex : nodeExists st id = true
    · rw [if_pos hex] at he
      rw [List.mem_filter, Bool.and_eq_true] at he
      exact ⟨by simpa using he.2.1, by simpa using he.2.2⟩
    · rw [if_neg hex] at he
      constructor
      · intro hsrc
        exact hex (hsrc ▸ (hFK e he).1)
      · intro htgt
        exact hex (htgt ▸ (hFK e he).2)
  · intro hnone
    unfold kg_delete_node
    have hex : nodeExists st id = false := nodeExists_eq_false_of_findNode_none hnone
    rw [if_neg (by simp [hex])]
    have hfilter : st.nodes.filter (fun n => n.id != id) = st.nodes := by
      apply List.filter_eq_self.2
      intro n hn
      simpa using findNode_none hnone n hn
    rw [hfilter]

/-- Witness for C4 on the small graph store. -/
theorem kg_delete_node_cascade_and_noop_witness :
    (∀ e ∈ storeG.edges,
      nodeExists storeG e.source_id = true ∧ nodeExists storeG e.target_id = true)
    ∧ ((∀ e ∈ (kg_delete_node storeG "a").1.edges, e.source_id ≠ "a" ∧ e.target_id ≠ "a")
      ∧ (findNode storeG "a" = none → (kg_delete_node storeG "a").1 = storeG)
      ∧ (kg_delete_node storeG "a").2 = ⟨"deleted", "a"⟩) :=
  ⟨by decide, kg_delete_node_cascade_and_noop storeG "a" (by decide)⟩

/-- C6: every operation addressing a node or document id with no stored
row returns the structured error payload as its normal return value; the
operations are total functions and never raise. -/
theorem missing_entity_structured_errors (st : Store) (id : String) (hops : Nat)
    (now : Int) (content : String) (nids : List String)
    (hn : findNode st id = none) (hd : findDoc st id = none) :
    kg_get st id hops = .error ("not_found:" ++ id)
    ∧ kg_doc_read st id = .error ("doc_not_found:" ++ id)
    ∧ kg_doc_append st now id content nids = .error ("doc_not_found:" ++ id)
    ∧ kg_doc_delete st id = .error ("doc_not_found:" ++ id) := by
  refine ⟨?_, ?_, ?_, ?_⟩
  · unfold kg_get
    rw [hn]
  · unfold kg_doc_read
    rw [hd]
  · unfold kg_doc_append
    rw [hd]
  · unfold kg_doc_delete
    rw [hd]

/-- Witness for C6 on the empty store. -/
theorem missing_entity_structured_errors_witness :
    (findNode storeEmpty "z" = none ∧ findDoc storeEmpty "z" = none)
    ∧ (kg_get storeEmpty "z" 1 = .error ("not_found:" ++ "z")
      ∧ kg_doc_read storeEmpty "z" = .error ("doc_not_found:" ++ "z")
      ∧ kg_doc_append storeEmpty 0 "z" "c" [] = .error ("doc_not_found:" ++ "z")
      ∧ kg_doc_delete storeEmpty "z" = .error ("doc_not_found:" ++ "z")) :=
  ⟨⟨by decide, by decide⟩,
   missing_entity_structured_errors storeEmpty "z" 1 0 "c" [] (by decide) (by decide)⟩

/-! ## Invariant lemmas for the mutation operations -/

lemma bulkInv_refl (st : Store) (now : Int) : bulkInv st st now :=
  ⟨fun n hn => List.mem_map_of_mem _ hn,
   fun n' hn' => ⟨Or.inl ⟨n', hn', rfl, rfl, Or.inl rfl⟩, Or.inl hn'⟩⟩

lemma bulkInv_nodes_congr {st0 cur1 cur2 : Store} {now : Int}
    (h : cur2.nodes = cur1.nodes) (hb : bulkInv st0 cur1 now) : bulkInv st0 cur2 now := by
  unfold bulkInv at hb ⊢
  rw [h]
  exact hb

lemma bulkApplyNode_inv (st0 cur : Store) (now : Int) (sp : NodeSpec)
    (h : bulkInv st0 cur now) : bulkInv st0 (bulkApplyNode now cur sp) now := by
  unfold bulkApplyNode
  by_cases hex : nodeExists cur sp.id = true
  · rw [if_pos hex]
    constructor
    · intro n hn
      rcases List.mem_map.1 (h.1 n hn) with ⟨m, hm, hmid⟩
      refine List.mem_map.2 ⟨_, List.mem_map_of_mem _ hm, ?_⟩
      by_cases hmi : m.id == sp.id
      · rw [if_pos hmi]
        exact hmid
      · rw [if_neg hmi]
        exact hmid
    · intro n' hn'
      rcases List.mem_map.1 hn' with ⟨m, hm, rfl⟩
      rcases h.2 m hm with ⟨hlink, hfresh⟩
      by_cases hmi : m.id == sp.id
      · rw [if_pos hmi]
        constructor
        · rcases hlink with ⟨n, hn, hnid, hnc, _⟩ | ⟨hc, hu, hni⟩
          · exact Or.inl ⟨n, hn, hnid, hnc, Or.inr rfl⟩
          · exact Or.inr ⟨hc, rfl, hni⟩
        · exact Or.inr rfl
      · rw [if_neg hmi]
        exact ⟨hlink, hfresh⟩
  · rw [if_neg hex]
    constructor
    · intro n hn
      rw [List.map_append]
      exact List.mem_append_left _ (h.1 n hn)
    · intro n' hn'
      rcases List.mem_append.1 hn' with h1 | h1
      · exact h.2 n' h1
      · rcases List.mem_singleton.1 h1 with rfl
        refine ⟨Or.inr ⟨rfl, rfl, ?_⟩, Or.inr rfl⟩
        intro hin
        rcases List.mem_map.1 hin with ⟨n, hn, hnid⟩
        have hnid2 : n.id = sp.id := hnid
        have hcur : sp.id ∈ cur.nodes.map (fun m => m.id) := hnid2 ▸ h.1 n hn
        rcases List.mem_map.1 hcur with ⟨m, hm, hmid⟩
        exact hex ((nodeExists_iff cur sp.id).2 ⟨m, hm, hmid⟩)

lemma bulk_fold_inv (now : Int) (st0 : Store) :
    ∀ (ns : List NodeSpec) (cur : Store), bulkInv st0 cur now →
      bulkInv st0 (ns.foldl (bulkApplyNode now) cur) now
  | [], _, h => h
  | sp :: ns, cur, h =>
    bulk_fold_inv now st0 ns (bulkApplyNode now cur sp) (bulkApplyNode_inv st0 cur now sp h)

lemma bulkEdges_nodes (now : Int) :
    ∀ (es : List EdgeSpec) (st st2 : Store), bulkEdges now st es = .ok st2 →
      st2.nodes = st.nodes
  | [], st, st2, h => by
    injection h with h
    rw [← h]
  | e :: es, st, st2, h => by
    unfold bulkEdges at h
    by_cases hex : (nodeExists st e.source_id && nodeExists st e.target_id) = true
    · rw [if_pos hex] at h
      exact bulkEdges_nodes now es
        { st with edges :=
            insertOrReplaceEdge st.edges (Edge.mk e.source_id e.target_id e.relation e.weight e.note now) } st2 h
    · rw [if_neg hex] at h
      cases h

lemma setDomainOne_inv (st0 cur : Store) (now : Int) (domain nid : String)
    (h : bulkInv st0 cur now) : bulkInv st0 (setDomainOne domain now cur nid) now := by
  unfold setDomainOne
  constructor
  · intro n hn
    rcases List.mem_map.1 (h.1 n hn) with ⟨m, hm, hmid⟩
    refine List.mem_map.2 ⟨_, List.mem_map_of_mem _ hm, ?_⟩
    by_cases hmi : m.id == nid
    · rw [if_pos hmi]
      exact hmid
    · rw [if_neg hmi]
      exact hmid
  · intro n' hn'
    rcases List.mem_map.1 hn' with ⟨m, hm, rfl⟩
    rcases h.2 m hm with ⟨hlink, hfresh⟩
    by_cases hmi : m.id == nid
    · rw [if_pos hmi]
      constructor
      · rcases hlink with ⟨n, hn, hnid, hnc, _⟩ | ⟨hc, hu, hni⟩
        · exact Or.inl ⟨n, hn, hnid, hnc, Or.inr rfl⟩
        · exact Or.inr ⟨hc, rfl, hni⟩
      · exact Or.inr rfl
    · rw [if_neg hmi]
      exact ⟨hlink, hfresh⟩

lemma setDomain_fold_inv (st0 : Store) (now : Int) (domain : String) :
    ∀ (ids : List String) (cur : Store), bulkInv st0 cur now →
      bulkInv st0 (ids.foldl (setDomainOne domain now) cur) now
  | [], _, h => h
  | nid :: ids, cur, h =>
    setDomain_fold_inv st0 now domain ids (setDomainOne domain now cur nid)
      (setDomainOne_inv st0 cur now domain nid h)

lemma put_node_inv (st : Store) (now : Int) (id type summary : String) (bands : List Int)
    (domain status kai_note : String) (meta : List (String × String)) :
    bulkInv st (kg_put_node st now id type summary bands domain status kai_note meta).1 now := by
  unfold kg_put_node
  cases hfn : findNode st id with
  | some ex =>
    dsimp only
    constructor
    · intro n hn
      refine List.mem_map.2 ⟨_, List.mem_map_of_mem _ hn, ?_⟩
      by_cases hni : n.id == id
      · rw [if_pos hni]
        show ex.id = n.id
        have h1 : n.id = id := by simpa using hni
        rw [(findNode_some hfn).2, ← h1]
      · rw [if_neg hni]
    · intro n' hn'
      rcases List.mem_map.1 hn' with ⟨m, hm, rfl⟩
      by_cases hmi : m.id == id
      · rw [if_pos hmi]
        exact ⟨Or.inl ⟨ex, (findNode_some hfn).1, rfl, rfl, Or.inr rfl⟩, Or.inr rfl⟩
      · rw [if_neg hmi]
        exact ⟨Or.inl ⟨m, hm, rfl, rfl, Or.inl rfl⟩, Or.inl hm⟩
  | none =>
    dsimp only
    constructor
    · intro n hn
      rw [List.map_append]
      exact List.mem_append_left _ (List.mem_map_of_mem _ hn)
    · intro n' hn'
      rcases List.mem_append.1 hn' with h1 | h1
      · exact ⟨Or.inl ⟨n', h1, rfl, rfl, Or.inl rfl⟩, Or.inl h1⟩
      · rcases List.mem_singleton.1 h1 with rfl
        refine ⟨Or.inr ⟨rfl, rfl, ?_⟩, Or.inr rfl⟩
        intro hin
        rcases List.mem_map.1 hin with ⟨n, hn, hnid⟩
        exact findNode_none hfn n hn hnid

lemma bulkInv_to_laws (st0 cur : Store) (now : Int)
    (hN : (st0.nodes.map (fun n => n.id)).Nodup)
    (h : bulkInv st0 cur now) :
    preservesNode st0 cur now ∧ refreshLaw st0 cur now := by
  constructor
  · intro n hn
    refine ⟨h.1 n hn, ?_⟩
    intro n' hn' hid
    rcases (h.2 n' hn').1 with ⟨m, hm, hmid, hmc, hmu⟩ | ⟨hc, hu, hnotin⟩
    · have hmn : m = n := List.inj_on_of_nodup_map hN hm hn (by rw [hmid, hid])
      subst hmn
      refine ⟨hmc.symm, ?_⟩
      intro hle
      rcases hmu with h2 | h2
      · rw [h2]
      · rw [h2]
        exact hle
    · exact absurd (hid ▸ List.mem_map_of_mem _ hn) hnotin
  · intro n' hn'
    exact (h.2 n' hn').2

/-- C7: across kg_put_node, kg_bulk and kg_bulk_set_domain, a node's id
and created_at never change after creation, and updated_at never moves
backwards (it is set to `now` on every row the operation touches), so it
increases monotonically across successive mutations under a forward
clock. -/
theorem node_identity_and_timestamp_invariant (st : Store) (now : Int)
    (id type summary : String) (bands : List Int)
    (domain status kai_note : String) (meta : List (String × String))
    (ns : List NodeSpec) (es : List EdgeSpec) (domain2 : String) (ids : List String)
    (hN : (st.nodes.map (fun n => n.id)).Nodup) :
    (preservesNode st (kg_put_node st now id type summary bands domain status kai_note meta).1 now
      ∧ refreshLaw st (kg_put_node st now id type summary bands domain status kai_note meta).1 now)
    ∧ (∀ st2 nc ec2, kg_bulk st now ns es = .ok (st2, nc, ec2) →
        preservesNode st st2 now ∧ refreshLaw st st2 now)
    ∧ (preservesNode st (kg_bulk_set_domain st now domain2 ids).1 now
      ∧ refreshLaw st (kg_bulk_set_domain st now domain2 ids).1 now) := by
  refine ⟨bulkInv_to_laws _ _ _ hN
      (put_node_inv st now id type summary bands domain status kai_note meta), ?_,
    bulkInv_to_laws _ _ _ hN (setDomain_fold_inv st now domain2 ids st (bulkInv_refl st now))⟩
  intro st2 nc ec2 hok
  unfold kg_bulk at hok
  cases hbe : bulkEdges now (ns.foldl (bulkApplyNode now) st) es with
  | ok stE =>
    rw [hbe] at hok
    injection hok with hok2
    injection hok2 with ha hb
    subst ha
    have hnodes : stE.nodes = (ns.foldl (bulkApplyNode now) st).nodes :=
      bulkEdges_nodes now es _ stE hbe
    exact bulkInv_to_laws _ _ _ hN
      (bulkInv_nodes_congr hnodes (bulk_fold_inv now st ns st (bulkInv_refl st now)))
  | error m =>
    rw [hbe] at hok
    cases hok

/-- Witness for C7 at a concrete store and concrete mutations. -/
theorem node_identity_and_timestamp_invariant_witness :
    (storeM.nodes.map (fun n => n.id)).Nodup
    ∧ ((preservesNode storeM (kg_put_node storeM 9 "n" "t2" "s2" [1] "d" "deep" "k"
          [("c", "3")]).1 9
        ∧ refreshLaw storeM (kg_put_node storeM 9 "n" "t2" "s2" [1] "d" "deep" "k"
          [("c", "3")]).1 9)
      ∧ (∀ st2 nc ec2, kg_bulk storeM 9 [⟨"p", "concept", "", [], "", "seed", "", []⟩] []
            = .ok (st2, nc, ec2) →
          preservesNode storeM st2 9 ∧ refreshLaw storeM st2 9)
      ∧ (preservesNode storeM (kg_bulk_set_domain storeM 9 "d2" ["n", "zz"]).1 9
        ∧ refreshLaw storeM (kg_bulk_set_domain storeM 9 "d2" ["n", "zz"]).1 9)) :=
  ⟨by decide,
   node_identity_and_timestamp_invariant storeM 9 "n" "t2" "s2" [1] "d" "deep" "k"
     [("c", "3")] [⟨"p", "concept", "", [], "", "seed", "", []⟩] [] "d2" ["n", "zz"]
     (by decide)⟩

/-- After the update of `kg_doc_append` replaced every row with the
target id by the fixed row `d'` (whose id is that id), the point lookup
returns `d'`. -/
lemma findDoc_after_update (st : Store) (id : String) (d' : Document) (hid : d'.id = id)
    (hsome : (findDoc st id).isSome) :
    findDoc { st with documents := st.documents.map (fun d => if d.id == id then d' else d) }
      id = some d' := by
  unfold findDoc
  dsimp only
  exact find?_update_eq (fun d : Document => d.id == id) d' (by simpa using hid)
    st.documents hsome

/-- C8: appending to an existing document concatenates the new content
after exactly one newline and replaces the node-id list by the
duplicate-free union of the old and supplied lists. -/
theorem kg_doc_append_newline_and_union (st : Store) (now : Int) (id content : String)
    (nids : List String) (row : Document) (hfind : findDoc st id = some row) :
    ∃ st' r, kg_doc_append st now id content nids = .ok (st', r)
      ∧ ∃ doc', findDoc st' id = some doc'
        ∧ doc'.content = row.content ++ "\n" ++ content
        ∧ doc'.node_ids.Nodup
        ∧ ∀ x, x ∈ doc'.node_ids ↔ (x ∈ row.node_ids ∨ x ∈ nids) := by
  have hrid : row.id = id := (findDoc_some hfind).2
  unfold kg_doc_append
  rw [hfind]
  dsimp only
  refine ⟨_, _, rfl, _, findDoc_after_update st id _ hrid (by rw [hfind]; rfl), rfl, ?_, ?_⟩
  · exact List.nodup_dedup _
  · intro x
    rw [List.mem_dedup, List.mem_append]

/-- Witness for C8: appending "line2" to a document whose content is
"line1" yields "line1\n" ++ "line2" and the merged id list. -/
theorem kg_doc_append_newline_and_union_witness :
    findDoc storeD "d1" = some (Document.mk "d1" "t" "line1" 0 ["n1"] 0 0)
    ∧ (∃ st' r, kg_doc_append storeD 7 "d1" "line2" ["n1", "n2"] = .ok (st', r)
      ∧ ∃ doc', findDoc st' "d1" = some doc'
        ∧ doc'.content = "line1" ++ "\n" ++ "line2"
        ∧ doc'.node_ids.Nodup
        ∧ ∀ x, x ∈ doc'.node_ids ↔ (x ∈ ["n1"] ∨ x ∈ ["n1", "n2"])) :=
  ⟨by decide,
   kg_doc_append_newline_and_union storeD 7 "d1" "line2" ["n1", "n2"]
     (Document.mk "d1" "t" "line1" 0 ["n1"] 0 0) (by decide)⟩

/-! ## Session-state lemmas and C9 -/

lemma lookupStr_stateMap (rows : List StateRow) (k : String) :
    lookupStr (rows.map (fun r => (r.key, r.value))) k = stateLookup rows k := by
  induction rows with
  | nil => rfl
  | cons r rows ih =>
    rw [List.map_cons, lookupStr_cons]
    unfold stateLookup
    by_cases h : r.key = k
    · rw [List.find?_cons_of_pos _ (by simpa using h)]
      simp [h]
    · rw [List.find?_cons_of_neg _ (by simpa using h)]
      rw [if_neg h]
      exact ih

lemma stateLookup_replace (rows : List StateRow) (k v : String) (now : Int) :
    stateLookup (stateReplace rows k v now) k = some v := by
  unfold stateReplace stateLookup
  have hall : ∀ r ∈ rows.filter (fun r => r.key != k),
      (fun r : StateRow => r.key == k) r = false := by
    intro r hr
    rw [List.mem_filter] at hr
    simpa using hr.2
  rw [find?_append_none _ _ _ hall, List.find?_cons_of_pos _ (by simp)]
  rfl

/-- C9: every invocation of kg_boot rewrites the persisted session_count
to the string form of its parsed value plus one. -/
theorem kg_boot_increments_session_count (st : Store) (now : Int) (include_edges : Bool)
    (v : String) (n : Int)
    (hv : stateLookup st.state "session_count" = some v) (hp : pyInt v = some n) :
    ∃ st' res, kg_boot st now include_edges = .ok (st', res)
      ∧ stateLookup st'.state "session_count" = some (toString (n + 1)) := by
  unfold kg_boot
  dsimp only
  rw [show lookupStr (st.state.map (fun r => (r.key, r.value))) "session_count" = some v from
    (lookupStr_stateMap st.state "session_count").trans hv]
  rw [Option.getD_some, hp]
  exact ⟨_, _, rfl, stateLookup_replace st.state "session_count" (toString (n + 1)) now⟩

/-- Witness for C9: a counter reading "3" becomes "4". -/
theorem kg_boot_increments_session_count_witness :
    (stateLookup storeS.state "session_count" = some "3" ∧ pyInt "3" = some 3)
    ∧ ∃ st' res, kg_boot storeS 9 false = .ok (st', res)
      ∧ stateLookup st'.state "session_count" = some (toString ((3 : Int) + 1)) :=
  ⟨⟨by decide, by decide⟩,
   kg_boot_increments_session_count storeS 9 false "3" 3 (by decide) (by decide)⟩

/-- C10: with session ≤ 0 the exact-session mode of kg_doc_search is
never used (the call falls through to substring matching when q is
nonempty, else to the recency listing), and a document whose
session_number is 0 — the default kg_doc_create assigns — can never be
selected by the session mode of any call. -/
theorem kg_doc_search_session_nonpositive (st : Store) (q : String) (session : Int)
    (limit : Nat) (hs : session ≤ 0) :
    (q ≠ "" → docSearchRows st q session limit
        = (sortBy docLeUpd (st.documents.filter (fun d =>
            likeContains q d.title || likeContains q d.content))).take limit)
    ∧ (q = "" → docSearchRows st q session limit
        = (sortBy docLeSessUpd st.documents).take limit)
    ∧ (∀ (q2 : String) (session2 : Int) (limit2 : Nat) (d : Document),
        0 < session2 → d ∈ docSearchRows st q2 session2 limit2 →
        d.session_number = session2 ∧ d.session_number ≠ sessionDefault) := by
  refine ⟨?_, ?_, ?_⟩
  · intro hq
    unfold docSearchRows
    rw [if_neg (by omega), if_pos hq]
  · intro hq
    unfold docSearchRows
    rw [if_neg (by omega), if_neg (by simp [hq])]
  · intro q2 session2 limit2 d hpos hd
    unfold docSearchRows at hd
    rw [if_pos hpos] at hd
    have hmem := List.take_subset _ _ hd
    have hmem2 := (mem_sortBy _ _ _).1 hmem
    rw [List.mem_filter] at hmem2
    have hsess : d.session_number = session2 := by simpa using hmem2.2
    refine ⟨hsess, ?_⟩
    unfold sessionDefault
    omega

/-- Witness for C10 at session 0 on the document store. -/
theorem kg_doc_search_session_nonpositive_witness :
    ((0 : Int) ≤ 0)
    ∧ (("" ≠ "" → docSearchRows storeD "" 0 10
        = (sortBy docLeUpd (storeD.documents.filter (fun d =>
            likeContains "" d.title || likeContains "" d.content))).take 10)
      ∧ ("" = "" → docSearchRows storeD "" 0 10
        = (sortBy docLeSessUpd storeD.documents).take 10)
      ∧ (∀ (q2 : String) (session2 : Int) (limit2 : Nat) (d : Document),
          0 < session2 → d ∈ docSearchRows storeD q2 session2 limit2 →
          d.session_number = session2 ∧ d.session_number ≠ sessionDefault)) :=
  ⟨by decide, kg_doc_search_session_nonpositive storeD "" 0 10 (by decide)⟩
